import Mathlib

/-!
Verification of the streak-statistics calculator in `src/streak_stats.py`.

The Python function `StreakStats.calculate_streaks` takes the raw JSON-like
dictionary returned by the GitHub GraphQL API and produces the tuple
`(current_streak, longest_streak, total_contributions, start_date, end_date)`,
catching every exception and returning `(0, 0, 0, "", "")` on any failure.

The embedding models Python values with the inductive type `PyVal`, Python
exceptions with `Except Unit`, and `datetime.date` values with their ordinal
day number (as an `Int`).  Dates are compared and subtracted exactly as the
source does via `datetime`, which is faithfully mirrored by ordinal
arithmetic.
-/

/-- A Python value as far as the calculator can observe it: integers, strings,
lists and string-keyed dictionaries. -/
inductive PyVal where
  | int (n : Int)
  | str (s : String)
  | list (xs : List PyVal)
  | dict (kvs : List (String × PyVal))

/-- Python subscription `v[k]` with a string key: succeeds only on a
dictionary containing the key (otherwise `KeyError`/`TypeError`). -/
def dictGet (v : PyVal) (k : String) : Except Unit PyVal :=
  match v with
  | .dict kvs =>
    match kvs.lookup k with
    | some x => .ok x
    | none => .error ()
  | _ => .error ()

/-- Python iteration over a value: lists yield their elements, strings yield
their characters (as one-character strings), dictionaries yield their keys;
integers raise `TypeError`. -/
def pyIter : PyVal → Except Unit (List PyVal)
  | .list xs => .ok xs
  | .str s => .ok (s.toList.map (fun c => PyVal.str (String.mk [c])))
  | .dict kvs => .ok (kvs.map (fun kv => PyVal.str kv.1))
  | .int _ => .error ()

/-- Split a character list at every dash, mirroring how the `%Y-%m-%d` format
string of `datetime.strptime` cuts the input at the literal dashes. -/
def splitDash : List Char → List (List Char)
  | [] => [[]]
  | c :: rest =>
    if c = '-' then [] :: splitDash rest
    else
      match splitDash rest with
      | g :: gs => (c :: g) :: gs
      | [] => [[c]]

/-- Numeric value of a list of decimal digit characters. -/
def digitsToNat (cs : List Char) : Nat :=
  cs.foldl (fun n c => n * 10 + (c.toNat - 48)) 0

/-- True when every character is a decimal digit. -/
def allDigits (cs : List Char) : Bool :=
  cs.all (fun c => c.isDigit)

/-- Gregorian leap-year rule used by `datetime`. -/
def isLeapYear (y : Nat) : Bool :=
  (y % 4 == 0 && y % 100 != 0) || y % 400 == 0

/-- Number of days in a month of a given year, as validated by
`datetime.date`. -/
def daysInMonth (y m : Nat) : Nat :=
  if m = 2 then (if isLeapYear y then 29 else 28)
  else if m = 4 ∨ m = 6 ∨ m = 9 ∨ m = 11 then 30
  else 31

/-- Days in the months of year `y` strictly before month `m`. -/
def daysBeforeMonth (y m : Nat) : Nat :=
  (List.range (m - 1)).foldl (fun a i => a + daysInMonth y (i + 1)) 0

/-- Proleptic-Gregorian ordinal of a calendar date, the same day numbering
`datetime.date.toordinal` uses; differences of ordinals are exactly the
`timedelta` day differences the source computes. -/
def toOrdinal (y m d : Nat) : Nat :=
  365 * (y - 1) + ((y - 1) / 4 + (y - 1) / 400 - (y - 1) / 100) + daysBeforeMonth y m + d

/-- Models `datetime.strptime(s, "%Y-%m-%d").date()`: the year is exactly four
digits, month and day are one or two digits, the month is 1..12, the day fits
the month, and the year is at least 1 (CPython's `TimeRE` patterns plus the
range checks of the `datetime` constructor). -/
def parseYMD (s : String) : Option (Nat × Nat × Nat) :=
  match splitDash s.toList with
  | [ys, ms, ds] =>
    if ys.length = 4 ∧ allDigits ys = true ∧
        1 ≤ ms.length ∧ ms.length ≤ 2 ∧ allDigits ms = true ∧
        1 ≤ ds.length ∧ ds.length ≤ 2 ∧ allDigits ds = true then
      if 1 ≤ digitsToNat ys ∧ 1 ≤ digitsToNat ms ∧ digitsToNat ms ≤ 12 ∧
          1 ≤ digitsToNat ds ∧
          digitsToNat ds ≤ daysInMonth (digitsToNat ys) (digitsToNat ms) then
        some (digitsToNat ys, digitsToNat ms, digitsToNat ds)
      else none
    else none
  | _ => none

/-- Date string parsed to its ordinal day number. -/
def parseDate (s : String) : Option Int :=
  match parseYMD s with
  | some (y, m, d) => some ((toOrdinal y m d : Nat) : Int)
  | none => none

/-- The value of `day["date"]` when it exists and is a string, the only case
in which the source can proceed past the sort key or `strptime`. -/
def dayDateStr (d : PyVal) : Option String :=
  match dictGet d "date" with
  | .ok (.str s) => some s
  | _ => none

/-- Parsed ordinal of a day record's date. -/
def dayOrd (d : PyVal) : Option Int :=
  (dayDateStr d).bind parseDate

/-- The value of `day["contributionCount"]` when it exists and is an integer,
the only case in which the comparison with `0` does not raise. -/
def dayCount (d : PyVal) : Option Int :=
  match dictGet d "contributionCount" with
  | .ok (.int n) => some n
  | _ => none

/-- A day record the source can fully process: its date parses and its count
is an integer. -/
def goodDay (d : PyVal) : Prop :=
  (dayOrd d).isSome = true ∧ (dayCount d).isSome = true

instance (d : PyVal) : Decidable (goodDay d) :=
  inferInstanceAs (Decidable ((dayOrd d).isSome = true ∧ (dayCount d).isSome = true))

/-- Fully typed view of a day record: date string, date ordinal, count. -/
structure ADay where
  name : String
  date : Int
  count : Int

/-- Typed view of a well-formed day record (defaults are never reached on
days satisfying `goodDay`). -/
def toADay (d : PyVal) : ADay :=
  ⟨(dayDateStr d).getD "", (dayOrd d).getD 0, (dayCount d).getD 0⟩

/-- State of the backward current-streak scan: `current_streak`,
`current_streak_start`, `current_streak_end` of the source. -/
structure CurState where
  streak : Nat
  start : Option String
  currEnd : Option String

/-- One backward scan over the day records, mirroring lines 98-121 of the
source: days in the anchor window (`today` or `today - 1`) extend the streak
when positive and break it when zero with a streak running; strictly older
days extend a running streak when positive and otherwise stop; days after
`today` fall through both conditions and are skipped. -/
def currentLoop (today : Int) : List PyVal → CurState → Except Unit CurState
  | [], s => .ok s
  | day :: rest, s =>
    match dayDateStr day with
    | some ds =>
      match parseDate ds with
      | some dd =>
        if dd ≤ today ∧ today - dd ≤ 1 then
          match dayCount day with
          | some c =>
            if 0 < c then
              currentLoop today rest
                ⟨s.streak + 1, some ds, if s.streak = 0 then some ds else s.currEnd⟩
            else if 0 < s.streak then .ok s
            else currentLoop today rest s
          | none => .error ()
        else if dd < today - 1 then
          match dayCount day with
          | some c =>
            if 0 < c then
              if s.streak = 0 then .ok s
              else currentLoop today rest ⟨s.streak + 1, some ds, s.currEnd⟩
            else .ok s
          | none => .error ()
        else currentLoop today rest s
      | none => .error ()
    | none => .error ()

/-- Same scan on typed day records. -/
def currentLoopA (today : Int) : List ADay → CurState → CurState
  | [], s => s
  | d :: rest, s =>
    if d.date ≤ today ∧ today - d.date ≤ 1 then
      if 0 < d.count then
        currentLoopA today rest
          ⟨s.streak + 1, some d.name, if s.streak = 0 then some d.name else s.currEnd⟩
      else if 0 < s.streak then s
      else currentLoopA today rest s
    else if d.date < today - 1 then
      if 0 < d.count then
        if s.streak = 0 then s
        else currentLoopA today rest ⟨s.streak + 1, some d.name, s.currEnd⟩
      else s
    else currentLoopA today rest s

/-- State of the forward longest-streak scan, one field per local variable of
lines 124-130 of the source. -/
structure LongState where
  longest : Nat
  temp : Nat
  longest_start : Option String
  longest_end : Option String
  temp_start : Option String
  prev_date : Option Int

/-- One step of the forward longest-streak scan (lines 131-150): a positive
day whose date is exactly one after the previous positive day's date (or with
no previous positive day) extends the temp streak and pushes the best-so-far;
a positive day after a larger gap restarts the temp streak at 1; a
non-positive day resets the temp streak. -/
def longStep (s : LongState) (d : ADay) : LongState :=
  if 0 < d.count then
    match s.prev_date with
    | some p =>
      if d.date - p = 1 then
        if s.longest < s.temp + 1 then
          ⟨s.temp + 1, s.temp + 1,
            if s.temp = 0 then some d.name else s.temp_start, some d.name,
            if s.temp = 0 then some d.name else s.temp_start, some d.date⟩
        else
          ⟨s.longest, s.temp + 1, s.longest_start, s.longest_end,
            if s.temp = 0 then some d.name else s.temp_start, some d.date⟩
      else
        ⟨s.longest, 1, s.longest_start, s.longest_end, some d.name, some d.date⟩
    | none =>
      if s.longest < s.temp + 1 then
        ⟨s.temp + 1, s.temp + 1,
          if s.temp = 0 then some d.name else s.temp_start, some d.name,
          if s.temp = 0 then some d.name else s.temp_start, some d.date⟩
      else
        ⟨s.longest, s.temp + 1, s.longest_start, s.longest_end,
          if s.temp = 0 then some d.name else s.temp_start, some d.date⟩
  else if 0 < s.temp then
    ⟨s.longest, 0, s.longest_start, s.longest_end, none, s.prev_date⟩
  else s

/-- Forward scan over the day records; every record's date is parsed and its
count compared with `0`, so any malformed record raises here. -/
def longestLoop : List PyVal → LongState → Except Unit LongState
  | [], s => .ok s
  | day :: rest, s =>
    match dayDateStr day with
    | some ds =>
      match parseDate ds with
      | some dd =>
        match dayCount day with
        | some c => longestLoop rest (longStep s ⟨ds, dd, c⟩)
        | none => .error ()
      | none => .error ()
    | none => .error ()

/-- Forward scan on typed day records. -/
def longestLoopA (l : List ADay) (s : LongState) : LongState :=
  l.foldl longStep s

/-- Lexicographic order on character lists by code point, the order Python
uses to compare the date strings in `all_days.sort(key=lambda x: x["date"])`. -/
def lexLe : List Char → List Char → Bool
  | [], _ => true
  | _ :: _, [] => false
  | a :: as, b :: bs => if a = b then lexLe as bs else decide (a < b)

/-- Key order used by `all_days.sort(key=lambda x: x["date"])`: compare the
date strings lexicographically. -/
def keyLE (a b : String × PyVal) : Prop :=
  lexLe a.1.data b.1.data = true

instance : DecidableRel keyLE := fun a b =>
  inferInstanceAs (Decidable (lexLe a.1.data b.1.data = true))

/-- Decoration phase of `list.sort(key=...)`: extract every record's date
string, failing at the first record without one.  A record whose date exists
but is not a string is also mapped to failure: in CPython the sort itself
fails on such a key only when a comparison touches it, but every surviving
date is fed to `strptime` by both scans afterwards, so a non-string date
always ends in the sole observable outcome, the zero result. -/
def keyDays : List PyVal → Except Unit (List (String × PyVal))
  | [] => .ok []
  | d :: rest =>
    match dayDateStr d with
    | some s =>
      match keyDays rest with
      | .ok ks => .ok ((s, d) :: ks)
      | .error e => .error e
    | none => .error ()

/-- The in-place stable sort `all_days.sort(key=lambda x: x["date"])`.
`List.insertionSort` with a total preorder on the keys is stable, so it
produces exactly the list CPython's stable sort produces. -/
def pySortDays (days : List PyVal) : Except Unit (List PyVal) :=
  match keyDays days with
  | .ok keyed => .ok ((List.insertionSort keyLE keyed).map Prod.snd)
  | .error _ => .error ()

/-- The flattening loop `for week in weeks: all_days.extend(week["contributionDays"])`. -/
def flattenWeeks : List PyVal → Except Unit (List PyVal)
  | [] => .ok []
  | w :: rest =>
    match dictGet w "contributionDays" with
    | .ok cd =>
      match pyIter cd with
      | .ok ds =>
        match flattenWeeks rest with
        | .ok more => .ok (ds ++ more)
        | .error e => .error e
      | .error e => .error e
    | .error _ => .error ()

/-- Line 79 of the source: the access path
`contribution_data["data"]["user"]["contributionsCollection"]["contributionCalendar"]`. -/
def calendarOf (cd : PyVal) : Except Unit PyVal :=
  match dictGet cd "data" with
  | .ok d =>
    match dictGet d "user" with
    | .ok u =>
      match dictGet u "contributionsCollection" with
      | .ok cc => dictGet cc "contributionCalendar"
      | .error _ => .error ()
    | .error _ => .error ()
  | .error _ => .error ()

/-- The flattened (unsorted) day records of the calendar of an input. -/
def allDaysOf (cd : PyVal) : Except Unit (List PyVal) :=
  match calendarOf cd with
  | .ok calendar =>
    match dictGet calendar "weeks" with
    | .ok weeksV =>
      match pyIter weeksV with
      | .ok weeks => flattenWeeks weeks
      | .error e => .error e
    | .error e => .error e
  | .error e => .error e

/-- The flattened day records sorted by date string. -/
def sortedDaysOf (cd : PyVal) : Except Unit (List PyVal) :=
  match allDaysOf cd with
  | .ok ds => pySortDays ds
  | .error e => .error e

/-- Result tuple of `calculate_streaks`:
`(current_streak, longest_streak, total_contributions, start_date, end_date)`.
The third component keeps its raw Python value because the source returns the
calendar's `totalContributions` entry without inspecting it. -/
abbrev CalcResult := Nat × Nat × PyVal × String × String

/-- Body of the `try:` block of `calculate_streaks` (lines 79-158): calendar
access, total extraction, flatten, sort, the two scans, and the final tuple
where `x or ""` maps `None` to the empty string.  (`sortedDaysOf` re-walks
the already validated calendar path; all the functions are pure, so this
yields the same value the single pass of the source computes.) -/
def calcBody (cd : PyVal) (today : Int) : Except Unit CalcResult :=
  match calendarOf cd with
  | .ok calendar =>
    match dictGet calendar "totalContributions" with
    | .ok total_contributions =>
      match sortedDaysOf cd with
      | .ok all_days =>
        match currentLoop today all_days.reverse ⟨0, none, none⟩ with
        | .ok cur =>
          match longestLoop all_days ⟨0, 0, none, none, none, none⟩ with
          | .ok lng =>
            .ok (cur.streak, lng.longest, total_contributions,
              cur.start.getD "", cur.currEnd.getD "")
          | .error _ => .error ()
        | .error _ => .error ()
      | .error _ => .error ()
    | .error _ => .error ()
  | .error _ => .error ()

/-- `calculate_streaks` with the catch-all `except` of lines 159-161: any
failure degrades to the zero tuple. -/
def calculate_streaks (contribution_data : PyVal) (today : Int) : CalcResult :=
  match calcBody contribution_data today with
  | .ok r => r
  | .error _ => (0, 0, PyVal.int 0, "", "")

/-- English month abbreviations produced by `strftime("%b")` in the C locale. -/
def monthAbbrev (m : Nat) : String :=
  match m with
  | 1 => "Jan" | 2 => "Feb" | 3 => "Mar" | 4 => "Apr"
  | 5 => "May" | 6 => "Jun" | 7 => "Jul" | 8 => "Aug"
  | 9 => "Sep" | 10 => "Oct" | 11 => "Nov" | 12 => "Dec"
  | _ => ""

/-- Two-digit zero-padded day produced by `strftime("%d")`. -/
def pad2 (n : Nat) : String :=
  if n < 10 then "0" ++ toString n else toString n

/-- `format_date` (lines 179-187): empty input gives `"N/A"`, a parseable
date gives the `"%b %d"` label, and the `except` branch returns the input
string unchanged. -/
def format_date (date_str : String) : String :=
  if date_str = "" then "N/A"
  else
    match parseYMD date_str with
    | some (_, m, d) => monthAbbrev m ++ " " ++ pad2 d
    | none => date_str

/-- The short labels `format_date` can emit: a month abbreviation, a space,
and a two-digit-padded day of month. -/
def isShortLabel (s : String) : Bool :=
  (List.range 12).any fun i =>
    (List.range 31).any fun j =>
      s == monthAbbrev (i + 1) ++ " " ++ pad2 (j + 1)

/-- Two adjacent day records have parseable dates exactly one day apart; a
calendar covering a contiguous range of days satisfies this chain after
sorting. -/
def consecDays (a b : PyVal) : Prop :=
  (dayOrd a).isSome = true ∧ dayOrd b = (dayOrd a).map (fun o => o + 1)

instance (a b : PyVal) : Decidable (consecDays a b) :=
  inferInstanceAs
    (Decidable ((dayOrd a).isSome = true ∧ dayOrd b = (dayOrd a).map (fun o => o + 1)))

instance : DecidableRel consecDays := fun _ _ => inferInstance

/-- Invariant of the longest-streak scan state: the running temp streak never
exceeds the best so far, and once a positive day has been seen (so
`prev_date` is set) the best is at least 1. -/
def GInv (s : LongState) : Prop :=
  s.temp ≤ s.longest ∧ (s.prev_date ≠ none → 1 ≤ s.longest)

/-- Invariant of the current-streak scan state: the start and end markers are
set exactly when the streak is positive, and they only ever hold date strings
that parsed, hence are nonempty. -/
def CurInv (s : CurState) : Prop :=
  (s.streak = 0 → s.start = none ∧ s.currEnd = none) ∧
  (s.streak ≠ 0 →
    (∃ a, s.start = some a ∧ a ≠ "") ∧ (∃ b, s.currEnd = some b ∧ b ≠ ""))

/-- Day record dictionary as GitHub delivers it. -/
def mkDay (d : String) (c : Int) : PyVal :=
  .dict [("contributionCount", .int c), ("date", .str d)]

/-- Week dictionary holding a list of day records. -/
def mkWeek (ds : List PyVal) : PyVal :=
  .dict [("contributionDays", .list ds)]

/-- Full GraphQL response shape around a calendar with the given total and
weeks. -/
def mkInput (total : PyVal) (weeks : List (List PyVal)) : PyVal :=
  .dict [("data", .dict [("user", .dict [("contributionsCollection",
    .dict [("contributionCalendar",
      .dict [("totalContributions", total), ("weeks", .list (weeks.map mkWeek))])])])])]

/-- Evaluation date used by the concrete scenarios: 2024-03-20. -/
def t0 : Int := ((toOrdinal 2024 3 20 : Nat) : Int)

/-- Scenario A calendar: counts 1 on today-4 .. today, 0 before. -/
def calC3 : PyVal := mkInput (.int 5)
  [[mkDay "2024-03-14" 0, mkDay "2024-03-15" 0],
   [mkDay "2024-03-16" 1, mkDay "2024-03-17" 1, mkDay "2024-03-18" 1],
   [mkDay "2024-03-19" 1, mkDay "2024-03-20" 1]]

/-- Scenario B calendar: counts 1 on today-10 .. today-5, 0 afterwards. -/
def calC4 : PyVal := mkInput (.int 6)
  [[mkDay "2024-03-10" 1, mkDay "2024-03-11" 1, mkDay "2024-03-12" 1,
    mkDay "2024-03-13" 1, mkDay "2024-03-14" 1, mkDay "2024-03-15" 1,
    mkDay "2024-03-16" 0],
   [mkDay "2024-03-17" 0, mkDay "2024-03-18" 0, mkDay "2024-03-19" 0,
    mkDay "2024-03-20" 0]]

/-- Counterexample input for C2: structurally intact calendar whose declared
total is a string instead of an integer. -/
def cexC2 : PyVal := mkInput (.str "oops") []

/-- Witness input for C2 (amended): the calendar dictionary is reachable and
its weeks are valid, but the `totalContributions` key is absent, so line 80
raises `KeyError`. -/
def calC2w : PyVal :=
  .dict [("data", .dict [("user", .dict [("contributionsCollection",
    .dict [("contributionCalendar", .dict [("weeks", PyVal.list [])])])])])]

/-- Calendar value inside `calC2w`. -/
def calC2wCal : PyVal := .dict [("weeks", PyVal.list [])]

/-- Witness calendar for C1: three consecutive contribution days. -/
def calC1w : PyVal := mkInput (.int 3)
  [[mkDay "2024-03-18" 1, mkDay "2024-03-19" 1, mkDay "2024-03-20" 1]]

/-- Witness calendar for C6: one good day and one day whose date string has
month 13, which `strptime` rejects. -/
def calC6w : PyVal := mkInput (.int 999)
  [[mkDay "2024-03-01" 2, mkDay "2024-13-01" 3]]

/-- Witness calendar for C7. -/
def calC7w : PyVal := mkInput (.int 42) [[mkDay "2024-03-01" 1]]

/-- Calendar value inside `calC7w`. -/
def calC7cal : PyVal :=
  .dict [("totalContributions", .int 42),
    ("weeks", .list [mkWeek [mkDay "2024-03-01" 1]])]

/-- Witness calendar for C8, weeks in chronological order. -/
def calC8a : PyVal := mkInput (.int 2)
  [[mkDay "2024-03-19" 1], [mkDay "2024-03-20" 1]]

/-- Witness calendar for C8, the same two weeks swapped. -/
def calC8b : PyVal := mkInput (.int 2)
  [[mkDay "2024-03-20" 1], [mkDay "2024-03-19" 1]]

/-- Calendar value inside `calC8a`. -/
def calC8aCal : PyVal :=
  .dict [("totalContributions", .int 2),
    ("weeks", .list [mkWeek [mkDay "2024-03-19" 1], mkWeek [mkDay "2024-03-20" 1]])]

/-- Calendar value inside `calC8b`. -/
def calC8bCal : PyVal :=
  .dict [("totalContributions", .int 2),
    ("weeks", .list [mkWeek [mkDay "2024-03-20" 1], mkWeek [mkDay "2024-03-19" 1]])]

/-- Witness day record for C10: a far-future date and no count field at all,
showing the backward scan skips it without touching its count. -/
def dFut : PyVal := .dict [("date", PyVal.str "9999-12-31")]

/-! Helper lemmas about the lexicographic key order. -/

theorem lexLe_total : ∀ a b : List Char, lexLe a b = true ∨ lexLe b a = true
  | [], _ => Or.inl rfl
  | _ :: _, [] => Or.inr rfl
  | a :: as, b :: bs => by
    by_cases hab : a = b
    · subst hab
      rcases lexLe_total as bs with h | h
      · exact Or.inl (by simp [lexLe, h])
      · exact Or.inr (by simp [lexLe, h])
    · rcases lt_or_gt_of_ne hab with h | h
      · exact Or.inl (by simp [lexLe, hab, h])
      · exact Or.inr (by simp [lexLe, Ne.symm hab, h])

theorem lexLe_trans : ∀ a b c : List Char,
    lexLe a b = true → lexLe b c = true → lexLe a c = true
  | [], _, _, _, _ => rfl
  | a :: as, [], _, h1, _ => by simp [lexLe] at h1
  | _ :: _, _ :: _, [], _, h2 => by simp [lexLe] at h2
  | a :: as, b :: bs, c :: cs, h1, h2 => by
    simp only [lexLe] at h1 h2 ⊢
    by_cases hab : a = b
    · subst hab
      by_cases hac : a = c
      · subst hac
        simpa using lexLe_trans as bs cs (by simpa using h1) (by simpa using h2)
      · rw [if_neg hac] at h2 ⊢
        exact h2
    · rw [if_neg hab] at h1
      by_cases hbc : b = c
      · subst hbc
        rw [if_neg hab]
        exact h1
      · rw [if_neg hbc] at h2
        have h1' : a < b := by simpa using h1
        have h2' : b < c := by simpa using h2
        have hac : a < c := lt_trans h1' h2'
        rw [if_neg (ne_of_lt hac)]
        simpa using hac

theorem lexLe_antisymm : ∀ a b : List Char,
    lexLe a b = true → lexLe b a = true → a = b
  | [], [], _, _ => rfl
  | [], _ :: _, _, h2 => by simp [lexLe] at h2
  | _ :: _, [], h1, _ => by simp [lexLe] at h1
  | a :: as, b :: bs, h1, h2 => by
    simp only [lexLe] at h1 h2
    by_cases hab : a = b
    · subst hab
      rw [lexLe_antisymm as bs (by simpa using h1) (by simpa using h2)]
    · rw [if_neg hab] at h1
      rw [if_neg (Ne.symm hab)] at h2
      have h1' : a < b := by simpa using h1
      have h2' : b < a := by simpa using h2
      exact absurd h1' (lt_asymm h2')

/-! Helper lemmas about date parsing. -/

theorem parseDate_ne_empty {s : String} {o : Int} (h : parseDate s = some o) : s ≠ "" := by
  intro he
  subst he
  have hn : parseDate "" = none := rfl
  rw [hn] at h
  cases h

theorem parseYMD_bounds {s : String} {y m d : Nat} (h : parseYMD s = some (y, m, d)) :
    1 ≤ m ∧ m ≤ 12 ∧ 1 ≤ d ∧ d ≤ 31 := by
  have hdim : ∀ y1 m1 : Nat, daysInMonth y1 m1 ≤ 31 := by
    intro y1 m1
    unfold daysInMonth
    split
    · split <;> omega
    · split <;> omega
  unfold parseYMD at h
  split at h
  · rename_i ys ms ds heq
    split at h
    · split at h
      · rename_i hrange
        obtain ⟨-, h2, h3, h4, h5⟩ := hrange
        have h6 := hdim (digitsToNat ys) (digitsToNat ms)
        injection h with h1
        injection h1 with hy hmd
        injection hmd with hm hd
        subst hm; subst hd
        exact ⟨h2, h3, h4, by omega⟩
      · cases h
    · cases h
  · cases h

/-! Helper lemmas about day records. -/

theorem goodDay_elim {d : PyVal} (h : goodDay d) :
    ∃ ds o c, dayDateStr d = some ds ∧ parseDate ds = some o ∧ dayCount d = some c ∧
      toADay d = ⟨ds, o, c⟩ := by
  obtain ⟨h1, h2⟩ := h
  cases hds : dayDateStr d with
  | none => rw [dayOrd, hds] at h1; simp at h1
  | some ds =>
    cases ho : parseDate ds with
    | none => rw [dayOrd, hds] at h1; simp [ho] at h1
    | some o =>
      cases hc : dayCount d with
      | none => rw [hc] at h2; simp at h2
      | some c =>
        refine ⟨ds, o, c, ?_, ?_, ?_, ?_⟩ <;>
          simp [toADay, dayOrd, hds, ho, hc]

theorem goodDay_of_parts {d : PyVal} {ds : String} {o c : Int}
    (h1 : dayDateStr d = some ds) (h2 : parseDate ds = some o)
    (h3 : dayCount d = some c) : goodDay d := by
  constructor
  · rw [dayOrd, h1]; simp [h2]
  · rw [h3]; rfl

/-! Simulation of the two scans on fully well-formed day lists. -/

theorem currentLoop_sim (today : Int) (l : List PyVal) :
    ∀ s : CurState, (∀ d ∈ l, goodDay d) →
      currentLoop today l s = .ok (currentLoopA today (l.map toADay) s) := by
  induction l with
  | nil => intro s _; rfl
  | cons day rest ih =>
    intro s hg
    obtain ⟨ds, o, c, h1, h2, h3, h4⟩ := goodDay_elim (hg day (List.mem_cons_self day rest))
    have hrest : ∀ d ∈ rest, goodDay d := fun d hd => hg d (List.mem_cons_of_mem _ hd)
    simp only [currentLoop, List.map_cons, currentLoopA, h1, h2, h3, h4]
    by_cases hA : o ≤ today ∧ today - o ≤ 1
    · rw [if_pos hA, if_pos hA]
      by_cases hc : 0 < c
      · rw [if_pos hc, if_pos hc, ih _ hrest]
      · rw [if_neg hc, if_neg hc]
        by_cases hs : 0 < s.streak
        · rw [if_pos hs, if_pos hs]
        · rw [if_neg hs, if_neg hs, ih _ hrest]
    · rw [if_neg hA, if_neg hA]
      by_cases hB : o < today - 1
      · rw [if_pos hB, if_pos hB]
        by_cases hc : 0 < c
        · rw [if_pos hc, if_pos hc]
          by_cases hs : s.streak = 0
          · rw [if_pos hs, if_pos hs]
          · rw [if_neg hs, if_neg hs, ih _ hrest]
        · rw [if_neg hc, if_neg hc]
      · rw [if_neg hB, if_neg hB, ih _ hrest]

theorem longestLoop_sim (l : List PyVal) :
    ∀ s : LongState, (∀ d ∈ l, goodDay d) →
      longestLoop l s = .ok (longestLoopA (l.map toADay) s) := by
  induction l with
  | nil => intro s _; rfl
  | cons day rest ih =>
    intro s hg
    obtain ⟨ds, o, c, h1, h2, h3, h4⟩ := goodDay_elim (hg day (List.mem_cons_self day rest))
    have hrest : ∀ d ∈ rest, goodDay d := fun d hd => hg d (List.mem_cons_of_mem _ hd)
    simp only [longestLoop, List.map_cons, longestLoopA, List.foldl_cons, h1, h2, h3, h4]
    rw [ih _ hrest]
    rfl

theorem longestLoop_ok_good (l : List PyVal) :
    ∀ (s r : LongState), longestLoop l s = .ok r → ∀ d ∈ l, goodDay d := by
  induction l with
  | nil => intro s r _ d hd; cases hd
  | cons day rest ih =>
    intro s r h d hd
    unfold longestLoop at h
    split at h
    · rename_i ds hds
      split at h
      · rename_i o ho
        split at h
        · rename_i c hc
          rcases List.mem_cons.mp hd with he | hm
          · subst he; exact goodDay_of_parts hds ho hc
          · exact ih _ _ h d hm
        · exact Except.noConfusion h
      · exact Except.noConfusion h
    · exact Except.noConfusion h

/-! Helper lemmas about the sort. -/

theorem keyDays_ok_snd (l : List PyVal) :
    ∀ ks, keyDays l = .ok ks → ks.map Prod.snd = l := by
  induction l with
  | nil => intro ks h; cases h; rfl
  | cons d rest ih =>
    intro ks h
    unfold keyDays at h
    cases hds : dayDateStr d with
    | none => rw [hds] at h; cases h
    | some s =>
      rw [hds] at h
      cases hk : keyDays rest with
      | error e => rw [hk] at h; cases h
      | ok ks2 =>
        rw [hk] at h
        cases h
        simp [ih ks2 hk]

theorem keyDays_eq_ok (l : List PyVal) (h : ∀ d ∈ l, (dayDateStr d).isSome = true) :
    keyDays l = .ok (l.map fun d => ((dayDateStr d).getD "", d)) := by
  induction l with
  | nil => rfl
  | cons d rest ih =>
    have hd := h d (List.mem_cons_self d rest)
    obtain ⟨s, hs⟩ := Option.isSome_iff_exists.mp hd
    have hrest := ih fun x hx => h x (List.mem_cons_of_mem _ hx)
    unfold keyDays
    rw [hs, hrest]
    simp [hs]

theorem keyDays_err (l : List PyVal) (h : ∃ d ∈ l, dayDateStr d = none) :
    keyDays l = .error () := by
  induction l with
  | nil => obtain ⟨d, hd, -⟩ := h; cases hd
  | cons d rest ih =>
    obtain ⟨x, hx, hnone⟩ := h
    unfold keyDays
    rcases List.mem_cons.mp hx with he | hm
    · subst he; rw [hnone]
    · cases hds : dayDateStr d with
      | none => rfl
      | some s => rw [ih ⟨x, hm, hnone⟩]

theorem pySortDays_ok_perm {l S : List PyVal} (h : pySortDays l = .ok S) : S.Perm l := by
  unfold pySortDays at h
  cases hk : keyDays l with
  | error e => rw [hk] at h; cases h
  | ok keyed =>
    rw [hk] at h
    cases h
    have hp : (List.insertionSort keyLE keyed).Perm keyed := List.perm_insertionSort _ _
    have := hp.map Prod.snd
    rwa [keyDays_ok_snd l keyed hk] at this

/-! Decomposition of a successful calculator body. -/

theorem calcBody_ok_parts {cd : PyVal} {today : Int} {r : CalcResult}
    (h : calcBody cd today = .ok r) :
    ∃ calendar total S cur lng,
      calendarOf cd = .ok calendar ∧
      dictGet calendar "totalContributions" = .ok total ∧
      sortedDaysOf cd = .ok S ∧
      currentLoop today S.reverse ⟨0, none, none⟩ = .ok cur ∧
      longestLoop S ⟨0, 0, none, none, none, none⟩ = .ok lng ∧
      r = (cur.streak, lng.longest, total, cur.start.getD "", cur.currEnd.getD "") := by
  unfold calcBody at h
  split at h
  · rename_i calendar hcal
    split at h
    · rename_i total ht
      split at h
      · rename_i S hS
        split at h
        · rename_i cur hcur
          split at h
          · rename_i lng hlng
            cases h
            exact ⟨calendar, total, S, cur, lng, hcal, ht, hS, hcur, hlng, rfl⟩
          · exact Except.noConfusion h
        · exact Except.noConfusion h
      · exact Except.noConfusion h
    · exact Except.noConfusion h
  · exact Except.noConfusion h

theorem calcBody_err_of_sorted {cd : PyVal} (today : Int)
    (h : sortedDaysOf cd = .error ()) : calcBody cd today = .error () := by
  unfold calcBody
  split
  · split
    · rw [h]
    · rfl
  · rfl

/-! Abstract lemmas about the backward current-streak scan. -/

theorem curA_ge (today : Int) (l : List ADay) :
    ∀ s : CurState, 0 < s.streak → (∀ d ∈ l, d.date ≤ today) →
      (currentLoopA today l s).streak =
        s.streak + (l.takeWhile fun d => decide (0 < d.count)).length := by
  induction l with
  | nil => intro s _ _; simp [currentLoopA, List.takeWhile]
  | cons d rest ih =>
    intro s hs hd
    have hrest : ∀ x ∈ rest, x.date ≤ today := fun x hx => hd x (List.mem_cons_of_mem _ hx)
    simp only [currentLoopA]
    by_cases hc : 0 < d.count
    · by_cases hA : d.date ≤ today ∧ today - d.date ≤ 1
      · rw [if_pos hA, if_pos hc,
          ih _ (by omega : 0 < s.streak + 1) hrest]
        simp [List.takeWhile, hc]
        omega
      · have hB : d.date < today - 1 := by
          have := hd d (List.mem_cons_self d rest)
          omega
        have hs0 : ¬ s.streak = 0 := by omega
        rw [if_neg hA, if_pos hB, if_pos hc, if_neg hs0,
          ih _ (by omega : 0 < s.streak + 1) hrest]
        simp [List.takeWhile, hc]
        omega
    · by_cases hA : d.date ≤ today ∧ today - d.date ≤ 1
      · rw [if_pos hA, if_neg hc, if_pos hs]
        simp [List.takeWhile, hc]
      · have hB : d.date < today - 1 := by
          have := hd d (List.mem_cons_self d rest)
          omega
        rw [if_neg hA, if_pos hB, if_neg hc]
        simp [List.takeWhile, hc]

theorem curA_run (today : Int) (l : List ADay) :
    ∀ s : CurState, s.streak = 0 →
      l.Pairwise (fun a b => b.date < a.date) →
      (currentLoopA today l s).streak = 0 ∨
        ∃ pre run suf, l = pre ++ run ++ suf ∧ (∀ x ∈ run, 0 < x.count) ∧
          run.length = (currentLoopA today l s).streak := by
  induction l with
  | nil => intro s hs _; exact Or.inl hs
  | cons d rest ih =>
    intro s hs hp
    have hd := (List.pairwise_cons.mp hp).1
    have hp2 := (List.pairwise_cons.mp hp).2
    simp only [currentLoopA]
    by_cases hA : d.date ≤ today ∧ today - d.date ≤ 1
    · by_cases hc : 0 < d.count
      · right
        have hle : ∀ x ∈ rest, x.date ≤ today := fun x hx =>
          le_of_lt (lt_of_lt_of_le (hd x hx) hA.1)
        rw [if_pos hA, if_pos hc]
        refine ⟨[], d :: (rest.takeWhile fun x => decide (0 < x.count)),
          rest.dropWhile fun x => decide (0 < x.count), ?_, ?_, ?_⟩
        · simp [List.takeWhile_append_dropWhile]
        · intro x hx
          rcases List.mem_cons.mp hx with he | hm
          · subst he; exact hc
          · have hpx := List.mem_takeWhile_imp hm
            simp only [decide_eq_true_eq] at hpx
            exact hpx
        · rw [curA_ge today rest
            ⟨s.streak + 1, some d.name, if s.streak = 0 then some d.name else s.currEnd⟩
            (by omega : 0 < s.streak + 1) hle]
          simp [hs]
          omega
      · have h0 : ¬ 0 < s.streak := by omega
        rw [if_pos hA, if_neg hc, if_neg h0]
        rcases ih s hs hp2 with h | ⟨pre, run, suf, he, hrun, hlen⟩
        · exact Or.inl h
        · exact Or.inr ⟨d :: pre, run, suf, by rw [he]; rfl, hrun, hlen⟩
    · by_cases hB : d.date < today - 1
      · by_cases hc : 0 < d.count
        · rw [if_neg hA, if_pos hB, if_pos hc, if_pos hs]
          exact Or.inl hs
        · rw [if_neg hA, if_pos hB, if_neg hc]
          exact Or.inl hs
      · rw [if_neg hA, if_neg hB]
        rcases ih s hs hp2 with h | ⟨pre, run, suf, he, hrun, hlen⟩
        · exact Or.inl h
        · exact Or.inr ⟨d :: pre, run, suf, by rw [he]; rfl, hrun, hlen⟩

/-! Abstract lemmas about the forward longest-streak scan. -/

theorem longStep_mono (s : LongState) (d : ADay) : s.longest ≤ (longStep s d).longest := by
  by_cases hc : 0 < d.count
  · cases hp : s.prev_date with
    | none =>
      simp only [longStep, if_pos hc, hp]
      split
      · rename_i hl; dsimp only; omega
      · dsimp only; exact le_refl _
    | some p =>
      by_cases hd : d.date - p = 1
      · simp only [longStep, if_pos hc, hp, if_pos hd]
        split
        · rename_i hl; dsimp only; omega
        · dsimp only; exact le_refl _
      · simp only [longStep, if_pos hc, hp, if_neg hd]
        exact le_refl _
  · simp only [longStep, if_neg hc]
    split
    · exact le_refl _
    · exact le_refl _

theorem longA_mono (l : List ADay) : ∀ s : LongState, s.longest ≤ (longestLoopA l s).longest := by
  induction l with
  | nil => intro s; exact le_refl _
  | cons d rest ih =>
    intro s
    calc s.longest ≤ (longStep s d).longest := longStep_mono s d
    _ ≤ (longestLoopA rest (longStep s d)).longest := ih _
    _ = (longestLoopA (d :: rest) s).longest := rfl

theorem longStep_inv {s : LongState} (d : ADay) (h : GInv s) : GInv (longStep s d) := by
  obtain ⟨h1, h2⟩ := h
  unfold GInv
  by_cases hc : 0 < d.count
  · cases hp : s.prev_date with
    | none =>
      simp only [longStep, if_pos hc, hp]
      split
      · exact ⟨le_refl _, fun _ => Nat.le_add_left 1 s.temp⟩
      · rename_i hl
        exact ⟨Nat.le_of_not_lt hl, fun _ =>
          le_trans (Nat.le_add_left 1 s.temp) (Nat.le_of_not_lt hl)⟩
    | some p =>
      have h2' : 1 ≤ s.longest := h2 (by rw [hp]; simp)
      by_cases hd : d.date - p = 1
      · simp only [longStep, if_pos hc, hp, if_pos hd]
        split
        · exact ⟨le_refl _, fun _ => Nat.le_add_left 1 s.temp⟩
        · rename_i hl
          exact ⟨Nat.le_of_not_lt hl, fun _ =>
            le_trans (Nat.le_add_left 1 s.temp) (Nat.le_of_not_lt hl)⟩
      · simp only [longStep, if_pos hc, hp, if_neg hd]
        exact ⟨h2', fun _ => h2'⟩
  · simp only [longStep, if_neg hc]
    split
    · exact ⟨Nat.zero_le _, h2⟩
    · exact ⟨h1, h2⟩

theorem longA_inv (l : List ADay) : ∀ s : LongState, GInv s → GInv (longestLoopA l s) := by
  induction l with
  | nil => intro s h; exact h
  | cons d rest ih => intro s h; exact ih _ (longStep_inv d h)

theorem longStep_pos_prev (s : LongState) (d : ADay) (hc : 0 < d.count) :
    (longStep s d).prev_date = some d.date := by
  cases hp : s.prev_date with
  | none =>
    simp only [longStep, if_pos hc, hp]
    split <;> rfl
  | some p =>
    by_cases hd : d.date - p = 1
    · simp only [longStep, if_pos hc, hp, if_pos hd]
      split <;> rfl
    · simp only [longStep, if_pos hc, hp, if_neg hd]

theorem longStep_pos_temp (s : LongState) (d : ADay) (hc : 0 < d.count) :
    1 ≤ (longStep s d).temp := by
  cases hp : s.prev_date with
  | none =>
    simp only [longStep, if_pos hc, hp]
    split <;> exact Nat.le_add_left 1 s.temp
  | some p =>
    by_cases hd : d.date - p = 1
    · simp only [longStep, if_pos hc, hp, if_pos hd]
      split <;> exact Nat.le_add_left 1 s.temp
    · simp only [longStep, if_pos hc, hp, if_neg hd]
      exact le_refl 1

theorem longStep_link_temp (s : LongState) (d : ADay) (hc : 0 < d.count)
    (p : Int) (hp : s.prev_date = some p) (hd : d.date - p = 1) :
    (longStep s d).temp = s.temp + 1 := by
  simp only [longStep, if_pos hc, hp, if_pos hd]
  split <;> rfl

theorem longRun (run : List ADay) :
    ∀ (s : LongState) (d0 : Int), (∀ x ∈ run, 0 < x.count) →
      List.Chain (fun a b => b = a + 1) d0 (run.map fun d => d.date) →
      s.prev_date = some d0 → GInv s →
      s.temp + run.length ≤ (longestLoopA run s).longest := by
  induction run with
  | nil => intro s d0 _ _ _ hinv; simpa using hinv.1
  | cons x rest ih =>
    intro s d0 hpos hch hprev hinv
    rw [List.map_cons] at hch
    have hx : x.date = d0 + 1 := (List.chain_cons.mp hch).1
    have hch2 : List.Chain (fun a b => b = a + 1) x.date (rest.map fun d => d.date) :=
      (List.chain_cons.mp hch).2
    have hxc : 0 < x.count := hpos x (List.mem_cons_self x rest)
    have hrest : ∀ y ∈ rest, 0 < y.count := fun y hy => hpos y (List.mem_cons_of_mem _ hy)
    have hd1 : x.date - d0 = 1 := by omega
    have hlink := longStep_link_temp s x hxc d0 hprev hd1
    have hih := ih (longStep s x) x.date hrest hch2
      (longStep_pos_prev s x hxc) (longStep_inv x hinv)
    have hgoal : longestLoopA (x :: rest) s = longestLoopA rest (longStep s x) := rfl
    rw [hgoal, List.length_cons]
    omega

theorem longEntry (x : ADay) (rest : List ADay) (s : LongState)
    (hx : 0 < x.count) (hrest : ∀ y ∈ rest, 0 < y.count)
    (hch : List.Chain (fun a b => b = a + 1) x.date (rest.map fun d => d.date))
    (hinv : GInv s) :
    1 + rest.length ≤ (longestLoopA (x :: rest) s).longest := by
  have hgoal : longestLoopA (x :: rest) s = longestLoopA rest (longStep s x) := rfl
  have := longRun rest (longStep s x) x.date hrest hch
    (longStep_pos_prev s x hx) (longStep_inv x hinv)
  have ht := longStep_pos_temp s x hx
  rw [hgoal]
  omega

theorem longA_ge_run (pre suf : List ADay) (x : ADay) (rest : List ADay)
    (hpos : ∀ y ∈ x :: rest, 0 < y.count)
    (hch : List.Chain' (fun a b : ADay => b.date = a.date + 1) (x :: rest)) :
    1 + rest.length ≤
      (longestLoopA (pre ++ (x :: rest) ++ suf) ⟨0, 0, none, none, none, none⟩).longest := by
  have hinv0 : GInv ⟨0, 0, none, none, none, none⟩ := ⟨le_refl _, fun h => absurd rfl h⟩
  have hinv1 : GInv (longestLoopA pre ⟨0, 0, none, none, none, none⟩) := longA_inv pre _ hinv0
  have hchm : List.Chain (fun a b => b = a + 1) x.date (rest.map fun d => d.date) := by
    have : List.Chain (fun a b : ADay => b.date = a.date + 1) x rest := hch
    exact (List.chain_map (fun d : ADay => d.date)).mpr this
  have hmid := longEntry x rest (longestLoopA pre ⟨0, 0, none, none, none, none⟩)
    (hpos x (List.mem_cons_self x rest)) (fun y hy => hpos y (List.mem_cons_of_mem _ hy))
    hchm hinv1
  have hfin := longA_mono suf (longestLoopA (x :: rest) (longestLoopA pre ⟨0, 0, none, none, none, none⟩))
  have heq : longestLoopA (pre ++ (x :: rest) ++ suf) ⟨0, 0, none, none, none, none⟩ =
      longestLoopA suf (longestLoopA (x :: rest) (longestLoopA pre ⟨0, 0, none, none, none, none⟩)) := by
    unfold longestLoopA
    rw [List.foldl_append, List.foldl_append]
  rw [heq]
  omega

/-! Transfer of the consecutive-dates chain to typed day records. -/

theorem chain'_consec (S : List PyVal) (hg : ∀ d ∈ S, goodDay d)
    (hch : S.Chain' consecDays) :
    List.Chain' (fun a b : ADay => b.date = a.date + 1) (S.map toADay) := by
  induction S with
  | nil => simp
  | cons a t ih =>
    cases t with
    | nil => simp
    | cons b t2 =>
      rw [List.map_cons, List.map_cons]
      rw [List.chain'_cons] at hch
      obtain ⟨hab, hch2⟩ := hch
      rw [List.chain'_cons]
      constructor
      · obtain ⟨oa, hoa⟩ := Option.isSome_iff_exists.mp hab.1
        have hob : dayOrd b = some (oa + 1) := by rw [hab.2, hoa]; rfl
        simp [toADay, hoa, hob]
      · exact ih (fun d hd => hg d (List.mem_cons_of_mem _ hd)) hch2

/-! Invariant of the backward scan state, giving the start/end emptiness law. -/

theorem currentLoop_inv (today : Int) (l : List PyVal) :
    ∀ s r : CurState, CurInv s → currentLoop today l s = .ok r → CurInv r := by
  induction l with
  | nil => intro s r hs h; cases h; exact hs
  | cons day rest ih =>
    intro s r hs h
    unfold currentLoop at h
    split at h
    · rename_i ds hds
      split at h
      · rename_i dd hdd
        split at h
        · -- anchor window
          split at h
          · rename_i c hc
            split at h
            · -- positive day, streak extended
              refine ih _ _ ⟨fun h0 => absurd h0 (Nat.succ_ne_zero s.streak), fun _ => ?_⟩ h
              constructor
              · exact ⟨ds, rfl, parseDate_ne_empty hdd⟩
              · show ∃ b, (if s.streak = 0 then some ds else s.currEnd) = some b ∧ b ≠ ""
                by_cases hs0 : s.streak = 0
                · rw [if_pos hs0]
                  exact ⟨ds, rfl, parseDate_ne_empty hdd⟩
                · rw [if_neg hs0]
                  exact (hs.2 hs0).2
            · split at h
              · cases h; exact hs
              · exact ih _ _ hs h
          · exact Except.noConfusion h
        · split at h
          · -- strictly older day
            split at h
            · rename_i c hc
              split at h
              · split at h
                · cases h; exact hs
                · rename_i hs0
                  refine ih _ _ ⟨fun h0 => absurd h0 (Nat.succ_ne_zero s.streak), fun _ => ?_⟩ h
                  exact ⟨⟨ds, rfl, parseDate_ne_empty hdd⟩, (hs.2 hs0).2⟩
              · cases h; exact hs
            · exact Except.noConfusion h
          · -- future day, skipped
            exact ih _ _ hs h
      · exact Except.noConfusion h
    · exact Except.noConfusion h

/-! Pairwise helper lemmas. -/

theorem pairwise_imp_mem {α : Type} {R S : α → α → Prop} :
    ∀ {l : List α}, (∀ a ∈ l, ∀ b ∈ l, R a b → S a b) → l.Pairwise R → l.Pairwise S := by
  intro l
  induction l with
  | nil => intro _ _; exact List.Pairwise.nil
  | cons x t ih =>
    intro himp hp
    obtain ⟨h1, h2⟩ := List.pairwise_cons.mp hp
    refine List.pairwise_cons.mpr ⟨?_, ?_⟩
    · intro b hb
      exact himp x (List.mem_cons_self x t) b (List.mem_cons_of_mem _ hb) (h1 b hb)
    · exact ih (fun a ha b hb hr =>
        himp a (List.mem_cons_of_mem _ ha) b (List.mem_cons_of_mem _ hb) hr) h2

theorem pairwise_and_self {α : Type} {R S : α → α → Prop} :
    ∀ {l : List α}, l.Pairwise R → l.Pairwise S →
      l.Pairwise fun a b => R a b ∧ S a b := by
  intro l
  induction l with
  | nil => intro _ _; exact List.Pairwise.nil
  | cons x t ih =>
    intro hr hs
    obtain ⟨hr1, hr2⟩ := List.pairwise_cons.mp hr
    obtain ⟨hs1, hs2⟩ := List.pairwise_cons.mp hs
    exact List.pairwise_cons.mpr ⟨fun b hb => ⟨hr1 b hb, hs1 b hb⟩, ih hr2 hs2⟩

/-! Claim theorems. -/

/-- C2 counterexample: the claim says every malformed input (including wrong
types) yields the zero-value StreakStats, but a calendar whose declared
`totalContributions` is the string `"oops"` is returned unchanged in the
total field without any exception, so the result is not the zero tuple. -/
theorem claim_C2_counterexample :
    calculate_streaks cexC2 0 ≠ (0, 0, PyVal.int 0, "", "") := by
  intro h
  have h2 : calculate_streaks cexC2 0 = (0, 0, PyVal.str "oops", "", "") := rfl
  rw [h2] at h
  have h3 : PyVal.str "oops" = PyVal.int 0 := congrArg (fun r : CalcResult => r.2.2.1) h
  exact PyVal.noConfusion h3

/-- C2 (amended): `calculate_streaks` is total, and the result is the
zero-value tuple whenever any structural step of the body fails: the calendar
access path is unreachable (empty structure, missing or wrong-typed path
keys), the `totalContributions` key is missing, the weeks value cannot be
flattened into day records, or some flattened day record is malformed
(missing or non-string date, unparseable date, missing or non-integer
count).  Only a wrong-typed `totalContributions` value present in an
otherwise processable calendar escapes the zeroing and is passed through. -/
theorem claim_C2_zero_on_malformed (input : PyVal) (today : Int)
    (h : calendarOf input = .error () ∨
      (∃ cal, calendarOf input = .ok cal ∧
        dictGet cal "totalContributions" = .error ()) ∨
      allDaysOf input = .error () ∨
      ∃ days, allDaysOf input = .ok days ∧ ∃ d ∈ days, ¬ goodDay d) :
    calculate_streaks input today = (0, 0, PyVal.int 0, "", "") := by
  unfold calculate_streaks
  cases hb : calcBody input today with
  | error e => rfl
  | ok r =>
    exfalso
    obtain ⟨cal2, total, S, cur, lng, hcal, ht, hS, hcur, hlng, hr⟩ := calcBody_ok_parts hb
    rcases h with herr | ⟨cal, hcalok, htot⟩ | herr | ⟨days, hdays, d, hmem, hbad⟩
    · rw [herr] at hcal
      exact Except.noConfusion hcal
    · rw [hcalok] at hcal
      have hcc : cal = cal2 := Except.ok.inj hcal
      subst hcc
      rw [htot] at ht
      exact Except.noConfusion ht
    · unfold sortedDaysOf at hS
      rw [herr] at hS
      exact Except.noConfusion hS
    · unfold sortedDaysOf at hS
      rw [hdays] at hS
      have hdS : d ∈ S := (pySortDays_ok_perm hS).mem_iff.mpr hmem
      exact hbad (longestLoop_ok_good S _ lng hlng d hdS)

/-- Witness for C2 (amended): a reachable calendar with valid (empty) weeks
but no `totalContributions` key is zeroed. -/
theorem claim_C2_witness :
    (calendarOf calC2w = .error () ∨
      (∃ cal, calendarOf calC2w = .ok cal ∧
        dictGet cal "totalContributions" = .error ()) ∨
      allDaysOf calC2w = .error () ∨
      ∃ days, allDaysOf calC2w = .ok days ∧ ∃ d ∈ days, ¬ goodDay d) ∧
    calculate_streaks calC2w 7 = (0, 0, PyVal.int 0, "", "") :=
  ⟨Or.inr (Or.inl ⟨calC2wCal, rfl, rfl⟩),
    claim_C2_zero_on_malformed calC2w 7 (Or.inr (Or.inl ⟨calC2wCal, rfl, rfl⟩))⟩

/-- C3: on a calendar with count 1 on today and the prior 4 days and count 0
before, the result is currentStreak = 5, longestStreak = 5,
currentStreakEnd = today and currentStreakStart = today minus 4 days
(here today is 2024-03-20, whose ordinal is `t0`). -/
theorem claim_C3_scenario_A :
    calculate_streaks calC3 t0 = (5, 5, PyVal.int 5, "2024-03-16", "2024-03-20") ∧
    parseDate "2024-03-20" = some t0 ∧ parseDate "2024-03-16" = some (t0 - 4) := by
  refine ⟨rfl, rfl, ?_⟩
  decide

/-- C4: on a calendar with count 0 on today and yesterday and count 1 on
today-10 through today-5, the result is currentStreak = 0 and
longestStreak = 6. -/
theorem claim_C4_scenario_B :
    calculate_streaks calC4 t0 = (0, 6, PyVal.int 6, "", "") ∧
    parseDate "2024-03-10" = some (t0 - 10) ∧ parseDate "2024-03-15" = some (t0 - 5) := by
  refine ⟨rfl, ?_, ?_⟩ <;> decide

/-- C5: for every input and every evaluation date, the current streak is zero
exactly when both the start and the end date strings of the result are
empty. -/
theorem claim_C5_zero_iff_empty (input : PyVal) (today : Int) :
    (calculate_streaks input today).1 = 0 ↔
      (calculate_streaks input today).2.2.2.1 = "" ∧
      (calculate_streaks input today).2.2.2.2 = "" := by
  unfold calculate_streaks
  cases hb : calcBody input today with
  | error e => simp
  | ok r =>
    obtain ⟨cal, total, S, cur, lng, hcal, ht, hS, hcur, hlng, hr⟩ := calcBody_ok_parts hb
    subst hr
    have hinv : CurInv cur := currentLoop_inv today S.reverse ⟨0, none, none⟩ cur
      ⟨fun _ => ⟨rfl, rfl⟩, fun h0 => absurd rfl h0⟩ hcur
    show cur.streak = 0 ↔ cur.start.getD "" = "" ∧ cur.currEnd.getD "" = ""
    constructor
    · intro h0
      obtain ⟨ha, hb2⟩ := hinv.1 h0
      rw [ha, hb2]
      exact ⟨rfl, rfl⟩
    · rintro ⟨h1, h2⟩
      by_contra h0
      obtain ⟨⟨a, ha, hane⟩, -⟩ := hinv.2 h0
      rw [ha] at h1
      simp at h1
      exact hane h1

/-- C6: a well-shaped calendar containing at least one day whose date string
does not parse degrades all-or-nothing: the whole result is the zero tuple,
including a zero total, regardless of the declared total and the other valid
days. -/
theorem claim_C6_bad_date_zeroes_all (input : PyVal) (today : Int) (days : List PyVal)
    (hd : allDaysOf input = .ok days)
    (hshape : ∀ d ∈ days, (dayDateStr d).isSome = true ∧ (dayCount d).isSome = true)
    (hbad : ∃ d ∈ days, dayOrd d = none) :
    calculate_streaks input today = (0, 0, PyVal.int 0, "", "") := by
  unfold calculate_streaks
  cases hb : calcBody input today with
  | error e => rfl
  | ok r =>
    exfalso
    obtain ⟨cal, total, S, cur, lng, hcal, ht, hS, hcur, hlng, hr⟩ := calcBody_ok_parts hb
    obtain ⟨d, hmem, hdo⟩ := hbad
    unfold sortedDaysOf at hS
    rw [hd] at hS
    have hdS : d ∈ S := (pySortDays_ok_perm hS).mem_iff.mpr hmem
    have hg := longestLoop_ok_good S _ lng hlng d hdS
    have h1 : (dayOrd d).isSome = true := hg.1
    rw [hdo] at h1
    simp at h1

/-- Witness for C6: a calendar declaring total 999 with one good day and one
day dated with month 13 returns the all-zero tuple. -/
theorem claim_C6_witness :
    allDaysOf calC6w = .ok [mkDay "2024-03-01" 2, mkDay "2024-13-01" 3] ∧
    (∀ d ∈ [mkDay "2024-03-01" 2, mkDay "2024-13-01" 3],
      (dayDateStr d).isSome = true ∧ (dayCount d).isSome = true) ∧
    (∃ d ∈ [mkDay "2024-03-01" 2, mkDay "2024-13-01" 3], dayOrd d = none) ∧
    calculate_streaks calC6w t0 = (0, 0, PyVal.int 0, "", "") :=
  ⟨rfl, by decide, by decide,
    claim_C6_bad_date_zeroes_all calC6w t0 _ rfl (by decide) (by decide)⟩

/-- C7: on any input whose calendar and declared total are readable and whose
body succeeds, the totalContributions field of the result is exactly the
declared value, passed through independently of the streak computation. -/
theorem claim_C7_total_passthrough (input : PyVal) (today : Int) (cal v : PyVal)
    (r : CalcResult)
    (hc : calendarOf input = .ok cal) (ht : dictGet cal "totalContributions" = .ok v)
    (hok : calcBody input today = .ok r) :
    (calculate_streaks input today).2.2.1 = v := by
  obtain ⟨cal2, total, S, cur, lng, hc2, ht2, hS, hcur, hlng, hr⟩ := calcBody_ok_parts hok
  rw [hc] at hc2
  have hcc : cal = cal2 := Except.ok.inj hc2
  subst hcc
  rw [ht] at ht2
  have hv : v = total := Except.ok.inj ht2
  unfold calculate_streaks
  rw [hok, hr, ← hv]

/-- Witness for C7 at a one-day calendar declaring total 42. -/
theorem claim_C7_witness :
    calendarOf calC7w = .ok calC7cal ∧
    dictGet calC7cal "totalContributions" = .ok (PyVal.int 42) ∧
    calcBody calC7w 0 = .ok (0, 1, PyVal.int 42, "", "") ∧
    (calculate_streaks calC7w 0).2.2.1 = PyVal.int 42 :=
  ⟨rfl, rfl, rfl,
    claim_C7_total_passthrough calC7w 0 calC7cal (PyVal.int 42) _ rfl rfl rfl⟩

/-- C9 counterexample: the claim says `format_date` always returns a short
label or `"N/A"`, but on the unparseable nonempty string `"garbage"` it
returns the input itself, which is neither. -/
theorem claim_C9_counterexample :
    ¬ (isShortLabel (format_date "garbage") = true ∨ format_date "garbage" = "N/A") := by
  decide

/-- C9 (amended): `format_date` returns `"N/A"` on the empty string; on any
input that parses as a `YYYY-MM-DD` date it returns the short
month-abbreviation label (which is one of the `isShortLabel` strings); and on
any nonempty input that does not parse it returns the input string unchanged
instead of `"N/A"`. -/
theorem claim_C9_format_date_amended :
    format_date "" = "N/A" ∧
    (∀ s : String, ∀ y m d : Nat, parseYMD s = some (y, m, d) →
      format_date s = monthAbbrev m ++ " " ++ pad2 d ∧
        isShortLabel (format_date s) = true) ∧
    (∀ s : String, s ≠ "" → parseYMD s = none → format_date s = s) := by
  refine ⟨rfl, ?_, ?_⟩
  · intro s y m d hp
    have hs : s ≠ "" := by
      intro he
      subst he
      rw [show parseYMD "" = none from rfl] at hp
      cases hp
    have hlabel : format_date s = monthAbbrev m ++ " " ++ pad2 d := by
      unfold format_date
      rw [if_neg hs, hp]
    refine ⟨hlabel, ?_⟩
    have hb := parseYMD_bounds hp
    rw [hlabel]
    unfold isShortLabel
    rw [List.any_eq_true]
    refine ⟨m - 1, List.mem_range.mpr (by omega), ?_⟩
    rw [List.any_eq_true]
    refine ⟨d - 1, List.mem_range.mpr (by omega), ?_⟩
    have hm : m - 1 + 1 = m := by omega
    have hd : d - 1 + 1 = d := by omega
    rw [hm, hd]
    exact beq_self_eq_true _
  · intro s hs hp
    unfold format_date
    rw [if_neg hs, hp]

/-- Witness for C9 (amended): 2024-01-05 parses and is formatted as the
label, while the nonempty unparseable string is echoed. -/
theorem claim_C9_witness :
    parseYMD "2024-01-05" = some (2024, 1, 5) ∧
    format_date "2024-01-05" = monthAbbrev 1 ++ " " ++ pad2 5 ∧
    isShortLabel (format_date "2024-01-05") = true ∧
    ("notadate" : String) ≠ "" ∧
    parseYMD "notadate" = none ∧
    format_date "notadate" = "notadate" :=
  ⟨rfl,
    (claim_C9_format_date_amended.2.1 "2024-01-05" 2024 1 5 rfl).1,
    (claim_C9_format_date_amended.2.1 "2024-01-05" 2024 1 5 rfl).2,
    by decide, rfl,
    claim_C9_format_date_amended.2.2 "notadate" (by decide) rfl⟩

/-- C10: in the backward current-streak scan, a day whose parsed date is
strictly after `today` neither extends nor breaks nor stops the scan: the
loop continues on the remaining (older) days with an unchanged state, and the
day's count is never consulted. -/
theorem claim_C10_future_day_skipped (today : Int) (d : PyVal) (rest : List PyVal)
    (s : CurState) (ds : String) (o : Int)
    (h1 : dayDateStr d = some ds) (h2 : parseDate ds = some o) (h3 : today < o) :
    currentLoop today (d :: rest) s = currentLoop today rest s := by
  have hA : ¬ (o ≤ today ∧ today - o ≤ 1) := by omega
  have hB : ¬ (o < today - 1) := by omega
  simp only [currentLoop, h1, h2]
  rw [if_neg hA, if_neg hB]

/-- Witness for C10: a record dated 9999-12-31 with no count key at all is
skipped by the scan when today is ordinal 10. -/
theorem claim_C10_witness :
    dayDateStr dFut = some "9999-12-31" ∧
    parseDate "9999-12-31" = some ((toOrdinal 9999 12 31 : Nat) : Int) ∧
    (10 : Int) < ((toOrdinal 9999 12 31 : Nat) : Int) ∧
    currentLoop 10 [dFut] ⟨0, none, none⟩ = currentLoop 10 [] ⟨0, none, none⟩ :=
  ⟨rfl, rfl, by decide,
    claim_C10_future_day_skipped 10 dFut [] ⟨0, none, none⟩ "9999-12-31"
      ((toOrdinal 9999 12 31 : Nat) : Int) rfl rfl (by decide)⟩

/-- C1: on any calendar whose sorted day records carry consecutive parseable
dates (one day apart, as a contiguous-range calendar guarantees), the longest
streak of the result is at least the current streak. -/
theorem claim_C1_longest_ge_current (input : PyVal) (today : Int)
    (hwf : ∀ days, sortedDaysOf input = .ok days → days.Chain' consecDays) :
    (calculate_streaks input today).1 ≤ (calculate_streaks input today).2.1 := by
  unfold calculate_streaks
  cases hb : calcBody input today with
  | error e => exact le_refl 0
  | ok r =>
    obtain ⟨cal, total, S, cur, lng, hcal, ht, hS, hcur, hlng, hr⟩ := calcBody_ok_parts hb
    subst hr
    show cur.streak ≤ lng.longest
    have hgood : ∀ d ∈ S, goodDay d := longestLoop_ok_good S _ lng hlng
    have hgoodR : ∀ d ∈ S.reverse, goodDay d := fun d hd => hgood d (List.mem_reverse.mp hd)
    have hc2 := currentLoop_sim today S.reverse ⟨0, none, none⟩ hgoodR
    rw [hcur] at hc2
    have hcureq : cur = currentLoopA today (S.reverse.map toADay) ⟨0, none, none⟩ :=
      Except.ok.inj hc2
    have hl2 := longestLoop_sim S ⟨0, 0, none, none, none, none⟩ hgood
    rw [hlng] at hl2
    have hlngeq : lng = longestLoopA (S.map toADay) ⟨0, 0, none, none, none, none⟩ :=
      Except.ok.inj hl2
    have hchA : List.Chain' (fun a b : ADay => b.date = a.date + 1) (S.map toADay) :=
      chain'_consec S hgood (hwf S hS)
    haveI : IsTrans ADay (fun a b : ADay => a.date < b.date) :=
      ⟨fun _ _ _ h1 h2 => lt_trans h1 h2⟩
    have hlt : List.Chain' (fun a b : ADay => a.date < b.date) (S.map toADay) :=
      hchA.imp (fun h => by omega)
    have hpw : (S.map toADay).Pairwise (fun a b => a.date < b.date) :=
      List.chain'_iff_pairwise.mp hlt
    have hpwr : ((S.map toADay).reverse).Pairwise (fun a b => b.date < a.date) :=
      List.pairwise_reverse.mpr hpw
    have hrevmap : S.reverse.map toADay = (S.map toADay).reverse := List.map_reverse _ _
    rw [hcureq, hlngeq, hrevmap]
    rw [hrevmap] at hcureq
    rcases curA_run today (S.map toADay).reverse ⟨0, none, none⟩ rfl hpwr with
      h0 | ⟨pre, run, suf, he, hrun, hlen⟩
    · rw [h0]
      exact Nat.zero_le _
    · rw [← hlen]
      have hrl : run.length = run.reverse.length := (List.length_reverse run).symm
      cases hrev : run.reverse with
      | nil =>
        rw [hrl, hrev]
        exact Nat.zero_le _
      | cons x rest =>
        have hA : S.map toADay = suf.reverse ++ (x :: rest) ++ pre.reverse := by
          have h1 : S.map toADay = (pre ++ run ++ suf).reverse := by
            rw [← he, List.reverse_reverse]
          rw [h1, List.reverse_append, List.reverse_append, hrev, List.append_assoc]
        have hposr : ∀ y ∈ x :: rest, 0 < y.count := by
          intro y hy
          rw [← hrev] at hy
          exact hrun y (List.mem_reverse.mp hy)
        have hchrun : List.Chain' (fun a b : ADay => b.date = a.date + 1) (x :: rest) := by
          rw [hA] at hchA
          exact hchA.left_of_append.right_of_append
        have hlong := longA_ge_run suf.reverse pre.reverse x rest hposr hchrun
        rw [← hA] at hlong
        have hxl : run.reverse.length = rest.length + 1 := by rw [hrev]; rfl
        omega

/-- Witness for C1 at a three-day calendar ending today. -/
theorem claim_C1_witness :
    (∀ days, sortedDaysOf calC1w = .ok days → days.Chain' consecDays) ∧
    (calculate_streaks calC1w t0).1 ≤ (calculate_streaks calC1w t0).2.1 := by
  have hwf : ∀ days, sortedDaysOf calC1w = .ok days → days.Chain' consecDays := by
    intro days h
    have he : sortedDaysOf calC1w =
        .ok [mkDay "2024-03-18" 1, mkDay "2024-03-19" 1, mkDay "2024-03-20" 1] := rfl
    rw [he] at h
    cases h
    exact List.chain'_cons.mpr ⟨by decide, List.chain'_cons.mpr
      ⟨by decide, List.chain'_singleton _⟩⟩
  exact ⟨hwf, claim_C1_longest_ge_current calC1w t0 hwf⟩

/-- C8: two inputs whose calendars declare the same total and whose flattened
day records are permutations of one another (for instance because weeks or
within-week day lists were permuted) produce identical results, provided the
date strings are pairwise distinct as a contiguous calendar guarantees; the
days are sorted by date before processing, so input order is immaterial. -/
theorem claim_C8_order_insensitive (in1 in2 : PyVal) (today : Int)
    (cal1 cal2 v : PyVal) (l1 l2 : List PyVal)
    (hc1 : calendarOf in1 = .ok cal1) (hc2 : calendarOf in2 = .ok cal2)
    (ht1 : dictGet cal1 "totalContributions" = .ok v)
    (ht2 : dictGet cal2 "totalContributions" = .ok v)
    (hl1 : allDaysOf in1 = .ok l1) (hl2 : allDaysOf in2 = .ok l2)
    (hp : l1.Perm l2) (hnd : (l1.map dayDateStr).Nodup) :
    calculate_streaks in1 today = calculate_streaks in2 today := by
  by_cases hall : ∀ d ∈ l1, (dayDateStr d).isSome = true
  case neg =>
    push_neg at hall
    obtain ⟨d, hd, hns⟩ := hall
    have hdn : dayDateStr d = none := by
      cases hdd : dayDateStr d with
      | none => rfl
      | some s => rw [hdd] at hns; simp at hns
    have hk1 : keyDays l1 = .error () := keyDays_err l1 ⟨d, hd, hdn⟩
    have hk2 : keyDays l2 = .error () := keyDays_err l2 ⟨d, hp.mem_iff.mp hd, hdn⟩
    have hs1 : sortedDaysOf in1 = .error () := by
      unfold sortedDaysOf
      rw [hl1]
      show pySortDays l1 = Except.error ()
      unfold pySortDays
      rw [hk1]
    have hs2 : sortedDaysOf in2 = .error () := by
      unfold sortedDaysOf
      rw [hl2]
      show pySortDays l2 = Except.error ()
      unfold pySortDays
      rw [hk2]
    unfold calculate_streaks
    rw [calcBody_err_of_sorted today hs1, calcBody_err_of_sorted today hs2]
  case pos =>
    have hall2 : ∀ d ∈ l2, (dayDateStr d).isSome = true := fun d hd =>
      hall d (hp.mem_iff.mpr hd)
    have hk1 := keyDays_eq_ok l1 hall
    have hk2 := keyDays_eq_ok l2 hall2
    have hkp : (l1.map fun d => ((dayDateStr d).getD "", d)).Perm
        (l2.map fun d => ((dayDateStr d).getD "", d)) := hp.map _
    haveI htot : IsTotal (String × PyVal) keyLE :=
      ⟨fun a b => lexLe_total a.1.data b.1.data⟩
    haveI htr : IsTrans (String × PyVal) keyLE :=
      ⟨fun a b c h1 h2 => lexLe_trans a.1.data b.1.data c.1.data h1 h2⟩
    have hsort1 : List.Sorted keyLE
        (List.insertionSort keyLE (l1.map fun d => ((dayDateStr d).getD "", d))) :=
      List.sorted_insertionSort keyLE _
    have hsort2 : List.Sorted keyLE
        (List.insertionSort keyLE (l2.map fun d => ((dayDateStr d).getD "", d))) :=
      List.sorted_insertionSort keyLE _
    have hnd' : l1.Pairwise fun a b => dayDateStr a ≠ dayDateStr b :=
      List.pairwise_map.mp hnd
    have hndk : l1.Pairwise fun a b =>
        (dayDateStr a).getD "" ≠ (dayDateStr b).getD "" := by
      refine pairwise_imp_mem (fun a ha b hb hne => ?_) hnd'
      obtain ⟨sa, hsa⟩ := Option.isSome_iff_exists.mp (hall a ha)
      obtain ⟨sb, hsb⟩ := Option.isSome_iff_exists.mp (hall b hb)
      rw [hsa, hsb]
      simp only [Option.getD_some]
      intro hss
      exact hne (by rw [hsa, hsb, hss])
    have hkeys1 : ((l1.map fun d => ((dayDateStr d).getD "", d)).map Prod.fst).Nodup := by
      rw [List.map_map]
      exact (List.pairwise_map).mpr hndk
    have hperm1 := List.perm_insertionSort keyLE (l1.map fun d => ((dayDateStr d).getD "", d))
    have hperm2 := List.perm_insertionSort keyLE (l2.map fun d => ((dayDateStr d).getD "", d))
    have hsp : (List.insertionSort keyLE (l1.map fun d => ((dayDateStr d).getD "", d))).Perm
        (List.insertionSort keyLE (l2.map fun d => ((dayDateStr d).getD "", d))) :=
      (hperm1.trans hkp).trans hperm2.symm
    have hk1nd : ((List.insertionSort keyLE
        (l1.map fun d => ((dayDateStr d).getD "", d))).map Prod.fst).Nodup :=
      ((hperm1.map Prod.fst).nodup_iff).mpr hkeys1
    have hk2nd : ((List.insertionSort keyLE
        (l2.map fun d => ((dayDateStr d).getD "", d))).map Prod.fst).Nodup :=
      ((hsp.map Prod.fst).nodup_iff).mp hk1nd
    have hne1 : (List.insertionSort keyLE
        (l1.map fun d => ((dayDateStr d).getD "", d))).Pairwise
          (fun a b => a.1 ≠ b.1) := List.pairwise_map.mp hk1nd
    have hne2 : (List.insertionSort keyLE
        (l2.map fun d => ((dayDateStr d).getD "", d))).Pairwise
          (fun a b => a.1 ≠ b.1) := List.pairwise_map.mp hk2nd
    have hlt1 := pairwise_and_self hsort1 hne1
    have hlt2 := pairwise_and_self hsort2 hne2
    haveI : IsAntisymm (String × PyVal) (fun a b => keyLE a b ∧ a.1 ≠ b.1) :=
      ⟨fun a b h1 h2 => by
        have hdata : a.1.data = b.1.data := lexLe_antisymm _ _ h1.1 h2.1
        exact absurd (congrArg String.mk hdata : a.1 = b.1) h1.2⟩
    have heq : List.insertionSort keyLE (l1.map fun d => ((dayDateStr d).getD "", d)) =
        List.insertionSort keyLE (l2.map fun d => ((dayDateStr d).getD "", d)) :=
      List.eq_of_perm_of_sorted hsp hlt1 hlt2
    have hs1 : sortedDaysOf in1 = .ok ((List.insertionSort keyLE
        (l1.map fun d => ((dayDateStr d).getD "", d))).map Prod.snd) := by
      unfold sortedDaysOf
      rw [hl1]
      show pySortDays l1 = _
      unfold pySortDays
      rw [hk1]
    have hs2 : sortedDaysOf in2 = .ok ((List.insertionSort keyLE
        (l1.map fun d => ((dayDateStr d).getD "", d))).map Prod.snd) := by
      unfold sortedDaysOf
      rw [hl2]
      show pySortDays l2 = _
      unfold pySortDays
      rw [hk2]
      show Except.ok ((List.insertionSort keyLE
          (l2.map fun d => ((dayDateStr d).getD "", d))).map Prod.snd) = _
      rw [← heq]
    simp only [calculate_streaks, calcBody, hc1, hc2, ht1, ht2, hs1, hs2]

/-- Witness for C8: the same two-week calendar delivered with its weeks
swapped produces the same result. -/
theorem claim_C8_witness :
    calendarOf calC8a = .ok calC8aCal ∧
    calendarOf calC8b = .ok calC8bCal ∧
    dictGet calC8aCal "totalContributions" = .ok (PyVal.int 2) ∧
    dictGet calC8bCal "totalContributions" = .ok (PyVal.int 2) ∧
    allDaysOf calC8a = .ok [mkDay "2024-03-19" 1, mkDay "2024-03-20" 1] ∧
    allDaysOf calC8b = .ok [mkDay "2024-03-20" 1, mkDay "2024-03-19" 1] ∧
    ([mkDay "2024-03-19" 1, mkDay "2024-03-20" 1].Perm
      [mkDay "2024-03-20" 1, mkDay "2024-03-19" 1]) ∧
    (([mkDay "2024-03-19" 1, mkDay "2024-03-20" 1].map dayDateStr).Nodup) ∧
    calculate_streaks calC8a t0 = calculate_streaks calC8b t0 :=
  ⟨rfl, rfl, rfl, rfl, rfl, rfl,
    List.Perm.swap (mkDay "2024-03-20" 1) (mkDay "2024-03-19" 1) [],
    by decide,
    claim_C8_order_insensitive calC8a calC8b t0 calC8aCal calC8bCal (PyVal.int 2)
      _ _ rfl rfl rfl rfl rfl rfl
      (List.Perm.swap (mkDay "2024-03-20" 1) (mkDay "2024-03-19" 1) [])
      (by decide)⟩
